import Mathlib

/-!
Verification of the hybrid retail-analyst agent (sources under `src/`):
the orchestration engine `src/agent/graph_hybrid.py`, the DSPy post-processing
modules `src/agent/dspy_signatures.py`, and the batch driver
`src/run_agent_hybrid.py`, shallowly embedded in Lean 4.

Python values are modelled by the inductive `PyVal`; Python floats are
modelled as rationals; Python strings as `String` (operated on through
`List Char`); fallible library calls (`json.loads`, `float(...)`) are modelled
as `Option`-returning functions.  The LangGraph state machine is modelled as a
small-step transition relation over the agent state plus a program counter.
-/

/-! ## Character-list utilities (prefix / substring / literal global replace)

`subst` models Python `re.sub(pattern, repl, s)` for a *literal* pattern
(no metacharacters), i.e. global leftmost non-overlapping replacement,
which is the behaviour exercised by `NL2SQLModule._clean_sql`. -/

/-- `hasPre p s = true` iff the character list `p` starts the list `s`. -/
def hasPre : List Char → List Char → Bool
  | [], _ => true
  | _ :: _, [] => false
  | a :: as, b :: bs => a == b && hasPre as bs

/-- `hasSub q s = true` iff `q` occurs contiguously inside `s`. -/
def hasSub (q : List Char) : List Char → Bool
  | [] => q.isEmpty
  | c :: cs => hasPre q (c :: cs) || hasSub q cs

/-- Global leftmost non-overlapping literal replacement, as performed by
Python `re.sub` with a metacharacter-free pattern. -/
def subst (pat rep : List Char) : List Char → List Char
  | [] => []
  | c :: cs =>
    if pat ≠ [] ∧ hasPre pat (c :: cs) = true then
      rep ++ subst pat rep (List.drop (pat.length - 1) cs)
    else
      c :: subst pat rep cs
termination_by s => s.length
decreasing_by
  · simp only [List.length_drop, List.length_cons]
    omega
  · simp only [List.length_cons]
    omega

/-- The last `k` characters of `l`. -/
def lastK (k : Nat) (l : List Char) : List Char := List.drop (l.length - k) l

/-- `true` when no nonempty proper leading segment of `q` equals a trailing
segment of `rep` (so an occurrence of `q` can never *end* inside freshly
inserted replacement text). -/
def noHeadTailClash (q rep : List Char) : Bool :=
  (List.range q.length).all fun k => k == 0 || !(List.take k q == lastK k rep)

/-- `true` when no nonempty proper trailing segment of `q` equals a leading
segment of `rep` (so an occurrence of `q` can never *start* inside freshly
inserted replacement text). -/
def noTailHeadClash (q rep : List Char) : Bool :=
  (List.range q.length).all fun k => k == 0 || !(lastK k q == List.take k rep)

/-- Lower-casing a string character by character, modelling Python
`str.lower()` on the ASCII text this system manipulates. -/
def lowerStr (s : String) : String := String.mk (s.data.map Char.toLower)

/-- Python whitespace characters recognised by `str.strip()`. -/
def isPySpace (c : Char) : Bool :=
  c == ' ' || c == '\t' || c == '\n' || c == '\r' || c == Char.ofNat 11 || c == Char.ofNat 12

/-- Python `str.strip()`: drop whitespace from both ends. -/
def stripStr (s : String) : String :=
  String.mk (((s.data.dropWhile isPySpace).reverse.dropWhile isPySpace).reverse)

/-- `strStarts p s` models Python `s.startswith(p)`. -/
def strStarts (p s : String) : Bool := hasPre p.data s.data

/-- `strHasSub p s` models Python `p in s` (substring test). -/
def strHasSub (p s : String) : Bool := hasSub p.data s.data

/-- First `n` characters, modelling Python slicing `s[:n]`. -/
def strTake (n : Nat) (s : String) : String := String.mk (s.data.take n)

/-! ## Python values -/

/-- Model of the Python values flowing through the agent: ints, floats
(modelled as rationals), strings, booleans, `None`, lists and (string-keyed)
dicts. -/
inductive PyVal where
  | vInt : Int → PyVal
  | vFloat : Rat → PyVal
  | vStr : String → PyVal
  | vBool : Bool → PyVal
  | vNone : PyVal
  | vList : List PyVal → PyVal
  | vDict : List (String × PyVal) → PyVal

open PyVal

/-- Python `type(x).__name__`, as used in the format-validation error tag. -/
def pyTypeName : PyVal → String
  | vInt _ => "int"
  | vFloat _ => "float"
  | vStr _ => "str"
  | vBool _ => "bool"
  | vNone => "NoneType"
  | vList _ => "list"
  | vDict _ => "dict"

/-- Decimal rendering of a nonnegative natural number. -/
def natDigits (n : Nat) : String := toString n

/-- Rendering of a rational that is exactly representable with a finite
decimal expansion (the only floats this system produces); other rationals
fall back to a fraction rendering that no Python float ever takes. -/
def floatStr (q : Rat) : String :=
  let sign := if q < 0 then "-" else ""
  let a := |q|
  if a.den == 1 then sign ++ natDigits a.num.toNat ++ ".0"
  else
    match (List.range 40).find? (fun k => ((a * (10 : Rat) ^ k).den == 1)) with
    | some k =>
      let m := (a * (10 : Rat) ^ k).num.toNat
      let ds := natDigits m
      let ds := if ds.length ≤ k then String.mk (List.replicate (k + 1 - ds.length) '0') ++ ds else ds
      sign ++ strTake (ds.length - k) ds ++ "." ++ String.mk (ds.data.drop (ds.length - k))
    | none => sign ++ toString a.num ++ "/" ++ toString a.den

mutual

/-- Python `repr(x)` (used by `str` on containers), modelled for the value
shapes this system produces. -/
def pyRepr : PyVal → String
  | vInt n => toString n
  | vFloat q => floatStr q
  | vStr s => "'" ++ s ++ "'"
  | vBool b => if b then "True" else "False"
  | vNone => "None"
  | vList l => "[" ++ pyReprJoin l ++ "]"
  | vDict d => "\x7b" ++ pyReprJoinKV d ++ "\x7d"

/-- Comma-joined reprs of a list of values. -/
def pyReprJoin : List PyVal → String
  | [] => ""
  | [x] => pyRepr x
  | x :: y :: rest => pyRepr x ++ ", " ++ pyReprJoin (y :: rest)

/-- Comma-joined reprs of dict entries. -/
def pyReprJoinKV : List (String × PyVal) → String
  | [] => ""
  | [(k, v)] => "'" ++ k ++ "': " ++ pyRepr v
  | (k, v) :: y :: rest => "'" ++ k ++ "': " ++ pyRepr v ++ ", " ++ pyReprJoinKV (y :: rest)

end

/-- Python `str(x)`: identity on strings, repr otherwise (for these shapes). -/
def pyStr : PyVal → String
  | vStr s => s
  | x => pyRepr x

/-! ## Number parsing, truncation, rounding (models of `float`, `int`, `round`) -/

/-- Digits of a character list read as a natural number, `none` if empty or
not all decimal digits. -/
def digitsToNat : List Char → Option Nat
  | [] => none
  | l => if l.all Char.isDigit then
      some (l.foldl (fun acc c => acc * 10 + (c.toNat - '0'.toNat)) 0)
    else none

/-- Model of Python `float(s)` on finite decimal literals: optional
whitespace and sign, then `digits`, `digits.digits`, `.digits` or
`digits.`, with an optional decimal exponent.  `inf`/`nan`/underscore
separators are not produced by this system and are treated as parse
failures (which coerce to the documented fallbacks downstream). -/
def pyFloat (s : String) : Option Rat :=
  let l := (s.data.dropWhile isPySpace).reverse.dropWhile isPySpace |>.reverse
  let (sign, l) : Rat × List Char :=
    match l with
    | '-' :: rest => (-1, rest)
    | '+' :: rest => (1, rest)
    | _ => (1, l)
  let intPart := l.takeWhile Char.isDigit
  let l := l.dropWhile Char.isDigit
  let (fracPart, l) : List Char × List Char :=
    match l with
    | '.' :: rest => (rest.takeWhile Char.isDigit, rest.dropWhile Char.isDigit)
    | _ => ([], l)
  if intPart.isEmpty && fracPart.isEmpty then none
  else
    let mantissa : Rat :=
      (intPart.foldl (fun acc c => acc * 10 + (c.toNat - '0'.toNat)) 0 : Nat)
      + (fracPart.foldl (fun acc c => acc * 10 + (c.toNat - '0'.toNat)) 0 : Nat) / (10 : Rat) ^ fracPart.length
    match l with
    | [] => some (sign * mantissa)
    | e :: rest =>
      if e == 'e' || e == 'E' then
        let (esign, rest) : Int × List Char :=
          match rest with
          | '-' :: r => (-1, r)
          | '+' :: r => (1, r)
          | _ => (1, rest)
        match digitsToNat rest with
        | some n =>
          if rest.dropWhile Char.isDigit |>.isEmpty then
            some (sign * mantissa * (if esign < 0 then ((10 : Rat) ^ n)⁻¹ else (10 : Rat) ^ n))
          else none
        | none => none
      else none

/-- Python `int(q)` on a float: truncation toward zero. -/
def pyTrunc (q : Rat) : Int := if q < 0 then ⌈q⌉ else ⌊q⌋

/-- Round half to even on rationals, as Python `round` does. -/
def roundHalfEven (q : Rat) : Int :=
  let f := ⌊q⌋
  let r := q - f
  if r < 1 / 2 then f
  else if 1 / 2 < r then f + 1
  else if f % 2 = 0 then f else f + 1

/-- Model of Python `round(x, 2)`. -/
def pyRound2 (q : Rat) : Rat := (roundHalfEven (q * 100) : Rat) / 100

/-! ## A model of `json.loads`

A recursive-descent parser for the JSON subset exercised by this system
(`null`, `true`, `false`, integers, decimal numbers, escape-free strings,
arrays, objects); inputs outside the subset are parse failures, which this
system's callers all catch and replace with documented fallbacks. -/

/-- Skip JSON whitespace. -/
def jsonWS (l : List Char) : List Char :=
  l.dropWhile fun c => c == ' ' || c == '\t' || c == '\n' || c == '\r'

mutual

/-- Parse one JSON value; returns the value and the unconsumed remainder. -/
def jsonVal (fuel : Nat) (l : List Char) : Option (PyVal × List Char) :=
  match fuel with
  | 0 => none
  | fuel + 1 =>
    match jsonWS l with
    | 'n' :: 'u' :: 'l' :: 'l' :: rest => some (vNone, rest)
    | 't' :: 'r' :: 'u' :: 'e' :: rest => some (vBool true, rest)
    | 'f' :: 'a' :: 'l' :: 's' :: 'e' :: rest => some (vBool false, rest)
    | '"' :: rest =>
      let sdata := rest.takeWhile fun c => c != '"' && c != '\\'
      match rest.drop sdata.length with
      | '"' :: rest2 => some (vStr (String.mk sdata), rest2)
      | _ => none
    | '[' :: rest =>
      (match jsonWS rest with
       | ']' :: rest2 => some (vList [], rest2)
       | _ => jsonArrayItems fuel rest [])
    | c :: rest =>
      if c == Char.ofNat 123 then
        (match jsonWS rest with
         | c2 :: rest2 =>
           if c2 == Char.ofNat 125 then some (vDict [], rest2)
           else jsonObjectItems fuel rest []
         | [] => none)
      else
        let numChars := (c :: rest).takeWhile fun ch =>
          ch.isDigit || ch == '-' || ch == '+' || ch == '.' || ch == 'e' || ch == 'E'
        if numChars.isEmpty then none
        else
          let rest2 := (c :: rest).drop numChars.length
          if numChars.all fun ch => ch.isDigit || ch == '-' then
            match numChars with
            | '-' :: ds =>
              (match digitsToNat ds with
               | some n => some (vInt (-(n : Int)), rest2)
               | none => none)
            | ds =>
              (match digitsToNat ds with
               | some n => some (vInt (n : Int), rest2)
               | none => none)
          else
            match pyFloat (String.mk numChars) with
            | some q => some (vFloat q, rest2)
            | none => none
    | [] => none

/-- Parse the items of a JSON array (after `[`, first item pending). -/
def jsonArrayItems (fuel : Nat) (l : List Char) (acc : List PyVal) :
    Option (PyVal × List Char) :=
  match fuel with
  | 0 => none
  | fuel + 1 =>
    match jsonVal fuel l with
    | none => none
    | some (v, rest) =>
      match jsonWS rest with
      | ',' :: rest2 => jsonArrayItems fuel rest2 (acc ++ [v])
      | ']' :: rest2 => some (vList (acc ++ [v]), rest2)
      | _ => none

/-- Parse the members of a JSON object (after the opening brace, first
member pending). -/
def jsonObjectItems (fuel : Nat) (l : List Char) (acc : List (String × PyVal)) :
    Option (PyVal × List Char) :=
  match fuel with
  | 0 => none
  | fuel + 1 =>
    match jsonWS l with
    | '"' :: rest =>
      let kdata := rest.takeWhile fun c => c != '"' && c != '\\'
      (match rest.drop kdata.length with
       | '"' :: rest2 =>
         (match jsonWS rest2 with
          | ':' :: rest3 =>
            (match jsonVal fuel rest3 with
             | none => none
             | some (v, rest4) =>
               match jsonWS rest4 with
               | ',' :: rest5 => jsonObjectItems fuel rest5 (acc ++ [(String.mk kdata, v)])
               | c :: rest5 =>
                 if c == Char.ofNat 125 then some (vDict (acc ++ [(String.mk kdata, v)]), rest5)
                 else none
               | [] => none)
          | _ => none)
       | _ => none)
    | _ => none

end

/-- Model of Python `json.loads`: parse one value and require only
whitespace to remain; any failure is `none` (Python raises). -/
def jsonLoads (s : String) : Option PyVal :=
  match jsonVal (s.data.length + 1) s.data with
  | some (v, rest) => if (jsonWS rest).isEmpty then some v else none
  | none => none

/-! ## Data model (`SQLResult`, retrieval fragments, `AgentState`) -/

/-- `SQLResult` from `src/agent/tools/sqlite_tool.py`: columns, row tuples,
optional error text. -/
structure SQLResult where
  columns : List String
  rows : List (List PyVal)
  error : Option String

/-- A retrieval fragment as returned by `Retriever.search`
(`src/agent/rag/retrieval.py`): id, content, score. -/
structure Doc where
  id : String
  content : String
  score : Rat
deriving DecidableEq

/-- The shared run state (`AgentState` in `src/agent/graph_hybrid.py`).
`error = none` models the Python value `None` stored under the `"error"`
key (the key itself is always present, set by `process_question`). -/
structure AgentState where
  question : String
  format_hint : String
  route : String
  retrieved_docs : List Doc
  extracted_constraints : PyVal
  sql : String
  sql_result : Option SQLResult
  final_answer : PyVal
  confidence : Rat
  explanation : String
  citations : PyVal
  error : Option String
  repair_count : Nat

/-! ## `NL2SQLModule` (`src/agent/dspy_signatures.py`) -/

/-- The literal pattern `"Order Details"` (quotes included). -/
def patOrderDetails : List Char := "\"Order Details\"".data

/-- The literal pattern `Order_Items`. -/
def patOrderItems : List Char := "Order_Items".data

/-- The literal pattern `CustomerName`. -/
def patCustomerName : List Char := "CustomerName".data

/-- The replacement `order_items`. -/
def repOrderItems : List Char := "order_items".data

/-- The replacement `CompanyName`. -/
def repCompanyName : List Char := "CompanyName".data

/-- `NL2SQLModule._clean_sql`: the three literal `re.sub` rewrites, applied
in the source's (insertion) order. -/
def clean_sql (sql : String) : String :=
  String.mk (subst patCustomerName repCompanyName
    (subst patOrderItems repOrderItems
      (subst patOrderDetails repOrderItems sql.data)))

/-- `NL2SQLModule.forward` post-processing of the model's raw SQL text:
strip, clean when nonempty, and substitute the placeholder
`"SELECT 1 as error"` when the result is empty (falsy). -/
def nl2sqlForward (raw : String) : String :=
  let s := stripStr raw
  let s := if s ≠ "" then clean_sql s else s
  if s = "" then "SELECT 1 as error" else s

/-! ## `RouterModule` -/

/-- `RouterModule.forward`: lower-case, strip, and fall back to `"hybrid"`
for anything outside `{rag, sql, hybrid}`. -/
def normalizeRoute (raw : String) : String :=
  let r := stripStr (lowerStr raw)
  if r = "rag" ∨ r = "sql" ∨ r = "hybrid" then r else "hybrid"

/-! ## `SynthesizerModule` -/

/-- Truthiness of `sql_result and hasattr(sql_result, 'rows') and
sql_result.rows`. -/
def hasRowsB (sr : Option SQLResult) : Bool :=
  match sr with
  | some r => !r.rows.isEmpty
  | none => false

/-- `SynthesizerModule._calculate_confidence`: 0.5, +0.3 for rows, +0.2 for
documents, decayed by `0.9 ** repair_count`, clamped to `[0.1, 1.0]`. -/
def calculate_confidence (sql_result : Option SQLResult) (docs : List Doc)
    (repair_count : Nat) : Rat :=
  let c : Rat := 1 / 2
  let c := if hasRowsB sql_result then c + 3 / 10 else c
  let c := if !docs.isEmpty then c + 1 / 5 else c
  let c := c * (9 / 10 : Rat) ^ repair_count
  max (1 / 10) (min 1 c)

/-- `SynthesizerModule._generate_basic_citations`: every truthy retrieved
document id, plus the four canonical table names when rows are non-empty,
deduplicated (`list(set(...))`; the Python set's iteration order is
unspecified, so only the member set is meaningful). -/
def generate_basic_citations (sql_result : Option SQLResult) (docs : List Doc) :
    List String :=
  let citations := docs.filterMap fun d => if d.id = "" then none else some d.id
  let citations :=
    if hasRowsB sql_result then
      citations ++ ["Orders", "Order Details", "Products", "Customers"]
    else citations
  citations.dedup

/-- The citations computed by `SynthesizerModule.forward`: an empty (falsy)
citation string yields `[]` directly; otherwise `json.loads` is attempted and
only a *parse failure* falls back to `_generate_basic_citations`. -/
def forwardCitations (citations_str : String) (sql_result : Option SQLResult)
    (docs : List Doc) : PyVal :=
  if citations_str = "" then vList []
  else
    match jsonLoads citations_str with
    | some v => v
    | none => vList ((generate_basic_citations sql_result docs).map vStr)

/-- `SynthesizerModule._get_format_default`. -/
def get_format_default (format_hint : String) : PyVal :=
  if format_hint = "int" then vInt 0
  else if format_hint = "float" then vFloat 0
  else if format_hint = "list" then vList []
  else if format_hint = "object" then vDict []
  else if strStarts "list[" format_hint then vList []
  else if strStarts "\x7b" format_hint then vDict []
  else vStr "Error"

/-- `SynthesizerModule._format_answer`.  The outer `try` can only be left
exceptionally through `int(float(...))` / `round(float(...), 2)`, modelled by
`pyFloat` returning `none`; the inner `json.loads` failures are caught by the
inner `except` branches. -/
def format_answer (answer : PyVal) (format_hint : String) : PyVal :=
  let answer_str := stripStr (pyStr answer)
  if format_hint = "int" then
    match pyFloat answer_str with
    | some q => vInt (pyTrunc q)
    | none => get_format_default format_hint
  else if format_hint = "float" then
    match pyFloat answer_str with
    | some q => vFloat (pyRound2 q)
    | none => get_format_default format_hint
  else if strStarts "list[" format_hint ∨ format_hint = "list" then
    match answer with
    | vList l => vList l
    | _ =>
      match jsonLoads answer_str with
      | some v => v
      | none => vList [vStr answer_str]
  else if strStarts "\x7b" format_hint ∨ format_hint = "object" then
    match answer with
    | vDict d => vDict d
    | _ =>
      match jsonLoads answer_str with
      | some v => v
      | none => vDict [("result", vStr answer_str)]
  else vStr answer_str

/-! ## `HybridAgent` helpers (`src/agent/graph_hybrid.py`) -/

/-- `str(x).replace('.', '').replace('-', '').isdigit()`. -/
def strippedDigits (s : String) : Bool :=
  let t := s.data.filter fun c => !(c == '.') && !(c == '-')
  !t.isEmpty && t.all Char.isDigit

/-- `HybridAgent._is_float`: `float(value)` succeeds. -/
def is_float (value : String) : Bool := (pyFloat value).isSome

/-- The `"int"` validator: `isinstance(x, int)` (Python `bool` is a
subclass of `int`) or a str/float whose rendering is all digits after
removing `.` and `-`. -/
def validatorInt : PyVal → Bool
  | vInt _ => true
  | vBool _ => true
  | vStr s => strippedDigits s
  | vFloat q => strippedDigits (pyStr (vFloat q))
  | _ => false

/-- The `"float"` validator: `isinstance(x, (int, float))` or a parseable
string. -/
def validatorFloat : PyVal → Bool
  | vInt _ => true
  | vFloat _ => true
  | vBool _ => true
  | vStr s => is_float s
  | _ => false

/-- `isinstance(x, list)`. -/
def isListVal : PyVal → Bool
  | vList _ => true
  | _ => false

/-- `isinstance(x, dict)`. -/
def isDictVal : PyVal → Bool
  | vDict _ => true
  | _ => false

/-- `HybridAgent._validate_format`. -/
def validate_format (answer : PyVal) (format_hint : String) : Bool :=
  if format_hint = "int" then validatorInt answer
  else if format_hint = "float" then validatorFloat answer
  else if format_hint = "list" then isListVal answer
  else if format_hint = "object" then isDictVal answer
  else if strStarts "list[" format_hint ∨ format_hint = "list" then isListVal answer
  else if strStarts "\x7b" format_hint ∨ format_hint = "object" then isDictVal answer
  else true

/-- `HybridAgent._detect_sql_error`: `none` when there is no result or a
falsy (absent/empty) error text; otherwise the first matching tag of
`syntax error` / `no such table` / `no such column` on the lower-cased
text, defaulting to `sql_execution_error`, prepended to the original
message. -/
def detect_sql_error (sql_result : Option SQLResult) : Option String :=
  match sql_result with
  | none => none
  | some r =>
    match r.error with
    | none => none
    | some err =>
      if err = "" then none
      else
        let el := lowerStr err
        if strHasSub "syntax error" el then some ("sql_syntax_error: " ++ err)
        else if strHasSub "no such table" el then some ("sql_table_error: " ++ err)
        else if strHasSub "no such column" el then some ("sql_column_error: " ++ err)
        else some ("sql_execution_error: " ++ err)

/-- `HybridAgent._detect_format_error`. -/
def detect_format_error (final_answer : PyVal) (format_hint : String) :
    Option String :=
  if validate_format final_answer format_hint then none
  else some ("format_validation_failed: expected " ++ format_hint ++ ", got "
    ++ pyTypeName final_answer)

/-! ## State-machine nodes and guards -/

/-- The nodes of the LangGraph state machine, plus the two ways a run can
stop: `terminal` models the `END` edge, and `crashed` models an uncaught
exception escaping a node or edge function (specifically the
`AttributeError` raised by `after_repair` when the stored error is `None`,
since `dict.get("error", "")` returns the stored `None`). -/
inductive Node where
  | router | retriever | planner | nl2sql | executor | synthesizer | repair
  | terminal | crashed
deriving DecidableEq

/-- `HybridAgent.router_node`: store the normalized route. -/
def routerNode (st : AgentState) (raw : String) : AgentState :=
  { st with route := normalizeRoute raw }

/-- `HybridAgent.retriever_node`: store the retrieved fragments
(`docs if docs else []` is the identity on lists). -/
def retrieverNode (st : AgentState) (docs : List Doc) : AgentState :=
  { st with retrieved_docs := docs }

/-- `HybridAgent.planner_node`: parse the model's constraints JSON, falling
back to `{}`. -/
def plannerNode (st : AgentState) (constraints_str : String) : AgentState :=
  { st with extracted_constraints := (jsonLoads constraints_str).getD (vDict []) }

/-- `HybridAgent.nl2sql_node`: store the post-processed SQL text. -/
def nl2sqlNode (st : AgentState) (raw : String) : AgentState :=
  { st with sql := nl2sqlForward raw }

/-- `HybridAgent.executor_node`: store the result verbatim and copy its
error field when truthy (a `None` or empty error text clears `error`). -/
def executorNode (st : AgentState) (res : SQLResult) : AgentState :=
  { st with
    sql_result := some res
    error := match res.error with
      | some e => if e = "" then none else some e
      | none => none }

/-- `HybridAgent.synthesizer_node` composed with `SynthesizerModule.forward`:
the model's raw answer (`ansIn`), explanation and citation text are external
inputs; the stored answer, confidence and citations are the deterministic
post-processing of those inputs. -/
def synthesizerNode (st : AgentState) (ansIn : PyVal) (expl citations_str : String) :
    AgentState :=
  { st with
    final_answer := format_answer ansIn st.format_hint
    confidence := calculate_confidence st.sql_result st.retrieved_docs st.repair_count
    explanation := strTake 200 expl
    citations := forwardCitations citations_str st.sql_result st.retrieved_docs }

/-- `HybridAgent.repair_node`. -/
def repairNode (st : AgentState) : AgentState :=
  let st := { st with repair_count := st.repair_count + 1 }
  if st.repair_count > 2 then
    { st with confidence := max (1 / 10) (st.confidence * (3 / 10)), error := none }
  else
    let sql_error := detect_sql_error st.sql_result
    let format_error := detect_format_error st.final_answer st.format_hint
    if sql_error = none ∧ format_error = none then
      { st with error := none
                confidence := max (1 / 10)
                  (st.confidence * (9 / 10 : Rat) ^ st.repair_count) }
    else st

/-- `HybridAgent.should_retrieve`. -/
def should_retrieve (st : AgentState) : Node :=
  if st.route = "rag" ∨ st.route = "hybrid" then .retriever else .planner

/-- `HybridAgent.should_plan`. -/
def should_plan (st : AgentState) : Node :=
  if st.route = "sql" ∨ st.route = "hybrid" then .planner else .synthesizer

/-- `HybridAgent.should_execute_sql`. -/
def should_execute_sql (st : AgentState) : Node :=
  if st.route = "sql" ∨ st.route = "hybrid" then .nl2sql else .synthesizer

/-- `HybridAgent.should_repair`: `END` once `repair_count >= 2`, else repair
iff either classification fires. -/
def should_repair (st : AgentState) : Node :=
  if st.repair_count ≥ 2 then .terminal
  else if (detect_sql_error st.sql_result).isSome
      || (detect_format_error st.final_answer st.format_hint).isSome then .repair
  else .terminal

/-- `HybridAgent.after_repair`: routes on the *stored* error text.  When the
stored error is Python `None`, `state.get("error", "")` returns `None` (the
key is present) and `None.startswith` raises `AttributeError`, modelled as
`crashed`. -/
def after_repair (st : AgentState) : Node :=
  match st.error with
  | none => .crashed
  | some e =>
    if strStarts "sql_" e then .nl2sql
    else if strStarts "format_" e || strStarts "missing_" e then .synthesizer
    else .synthesizer

/-! ## The transition system -/

/-- A machine configuration: the node about to execute, the shared run
state, and two ghost observation counters (number of completed synthesizer
executions, number of completed steps) that influence no transition. -/
structure Mach where
  pc : Node
  st : AgentState
  synthCount : Nat
  steps : Nat

/-- External inputs consumed by the nodes that call a collaborator: the
model's route text, the retrieved fragments, the model's constraints JSON,
the model's SQL text, the store's execution result, and the model's
synthesis outputs (answer, explanation, citations JSON). -/
inductive Inp where
  | irout (s : String)
  | iretr (docs : List Doc)
  | iplan (s : String)
  | insql (s : String)
  | iexec (r : SQLResult)
  | isynth (a : PyVal) (e : String) (c : String)
  | irep

/-- One step of the engine: execute the node at `pc` on the given input and
follow its outgoing (conditional) edge, per `HybridAgent.build_graph`.
`terminal` and `crashed` have no outgoing steps. -/
def stepF (m : Mach) (i : Inp) : Option Mach :=
  match m.pc, i with
  | .router, .irout s =>
    let st := routerNode m.st s
    some ⟨should_retrieve st, st, m.synthCount, m.steps + 1⟩
  | .retriever, .iretr docs =>
    let st := retrieverNode m.st docs
    some ⟨should_plan st, st, m.synthCount, m.steps + 1⟩
  | .planner, .iplan s =>
    let st := plannerNode m.st s
    some ⟨should_execute_sql st, st, m.synthCount, m.steps + 1⟩
  | .nl2sql, .insql s =>
    some ⟨.executor, nl2sqlNode m.st s, m.synthCount, m.steps + 1⟩
  | .executor, .iexec r =>
    some ⟨.synthesizer, executorNode m.st r, m.synthCount, m.steps + 1⟩
  | .synthesizer, .isynth a e c =>
    let st := synthesizerNode m.st a e c
    some ⟨should_repair st, st, m.synthCount + 1, m.steps + 1⟩
  | .repair, .irep =>
    let st := repairNode m.st
    some ⟨after_repair st, st, m.synthCount, m.steps + 1⟩
  | _, _ => none

/-- The step relation generated by `stepF`. -/
def Step (m m' : Mach) : Prop := ∃ i, stepF m i = some m'

/-- Reachability in the transition system. -/
inductive Reach : Mach → Mach → Prop where
  | refl (m : Mach) : Reach m m
  | tail {a b c : Mach} : Reach a b → Step b c → Reach a c

/-- The initial run state built by `process_question` in
`src/run_agent_hybrid.py`. -/
def initState (question format_hint : String) : AgentState :=
  { question := question
    format_hint := format_hint
    route := ""
    retrieved_docs := []
    extracted_constraints := vDict []
    sql := ""
    sql_result := none
    final_answer := vNone
    confidence := 0
    explanation := ""
    citations := vList []
    error := none
    repair_count := 0 }

/-- The initial machine configuration: entry point `router`. -/
def initMach (question format_hint : String) : Mach :=
  ⟨.router, initState question format_hint, 0, 0⟩

/-- Run a list of inputs from a configuration (`none` if some input does
not match the node about to execute). -/
def runF : Mach → List Inp → Option Mach
  | m, [] => some m
  | m, i :: is =>
    match stepF m i with
    | some m' => runF m' is
    | none => none

/-! ## Batch-driver confidence handling (`src/run_agent_hybrid.py`) -/

/-- The confidence emitted by `process_question` on the success path:
`round(result_state.get("confidence", 0.5), 2)`. -/
def driver_confidence (st : AgentState) : Rat := pyRound2 st.confidence

/-- The confidence of the fallback record emitted when an exception escapes
the engine for one question. -/
def driver_fallback_confidence : Rat := 1 / 10

/-! ## Invariant and step measure for the transition system -/

/-- Remaining-step weight of a node, used to bound run length. -/
def nodeWeight : Node → Nat
  | .router => 10
  | .retriever => 9
  | .planner => 8
  | .nl2sql => 7
  | .executor => 6
  | .synthesizer => 5
  | .repair => 4
  | .terminal => 0
  | .crashed => 0

/-- The inductive invariant of the engine: the repair counter never exceeds
2 (and is at most 1 when the repair node is about to run), the synthesizer
execution count is bounded by the repair counter, every run is bounded in
length, and the confidence is either the unset initial `0.0` or inside
`[0.1, 1.0]` (always inside once the repair guard or the terminal state is
reached, since the synthesizer has then run). -/
def EngineInv (m : Mach) : Prop :=
  m.st.repair_count ≤ 2 ∧
  (m.pc = .repair → m.st.repair_count ≤ 1) ∧
  (match m.pc with
   | .repair | .terminal | .crashed => m.synthCount ≤ m.st.repair_count + 1
   | _ => m.synthCount ≤ m.st.repair_count) ∧
  m.steps + nodeWeight m.pc + 4 * (2 - m.st.repair_count) ≤ 18 ∧
  (m.st.confidence = 0 ∨ (1 / 10 ≤ m.st.confidence ∧ m.st.confidence ≤ 1)) ∧
  ((m.pc = .repair ∨ m.pc = .terminal) →
    (1 / 10 ≤ m.st.confidence ∧ m.st.confidence ≤ 1))

/-- The confidence formula exactly as the specification words it:
`clamp(base * 0.9^repair_count, 0.1, 1.0)` with
`base = 0.5 (+0.3 if rows non-empty) (+0.2 if documents non-empty)`.
This definition follows the spec's words, to be compared with
`calculate_confidence`, which is translated from the source. -/
def confidence_spec (hasRows docsPresent : Bool) (repair_count : Nat) : Rat :=
  let base : Rat := 1 / 2 + (if hasRows then 3 / 10 else 0)
    + (if docsPresent then 1 / 5 else 0)
  max (1 / 10) (min 1 (base * (9 / 10 : Rat) ^ repair_count))

/-! ## Support lemmas: `hasPre` / `hasSub` -/

theorem hasPre_nil_right (q : List Char) : hasPre q [] = q.isEmpty := by
  cases q <;> simp [hasPre, List.isEmpty]

theorem hasPre_take (k : Nat) (l : List Char) : hasPre (List.take k l) l = true := by
  induction l generalizing k with
  | nil => cases k <;> simp [hasPre]
  | cons c cs ih =>
    cases k with
    | zero => simp [hasPre]
    | succ k => simpa [hasPre] using ih k

theorem hasPre_imp_take {p l : List Char} (h : hasPre p l = true) :
    List.take p.length l = p := by
  induction p generalizing l with
  | nil => simp
  | cons d p' ih =>
    cases l with
    | nil => simp [hasPre] at h
    | cons c cs =>
      simp only [hasPre, Bool.and_eq_true, beq_iff_eq] at h
      simp [h.1, ih h.2]

theorem hasPre_length_le {p l : List Char} (h : hasPre p l = true) :
    p.length ≤ l.length := by
  induction p generalizing l with
  | nil => simp
  | cons d p' ih =>
    cases l with
    | nil => simp [hasPre] at h
    | cons c cs =>
      simp only [hasPre, Bool.and_eq_true] at h
      simpa using ih h.2

theorem hasSub_of_hasPre {q s : List Char} (h : hasPre q s = true) :
    hasSub q s = true := by
  cases s with
  | nil =>
    cases q with
    | nil => simp [hasSub]
    | cons d q' => simp [hasPre] at h
  | cons c cs => simp [hasSub, h]

theorem hasSub_drop {q s : List Char} {n : Nat}
    (h : hasSub q (List.drop n s) = true) : hasSub q s = true := by
  induction s generalizing n with
  | nil => simpa using h
  | cons c cs ih =>
    cases n with
    | zero => simpa using h
    | succ n =>
      simp only [List.drop_succ_cons] at h
      simp [hasSub, ih h]

theorem hasPre_append_split {q u v : List Char} (h : hasPre q (u ++ v) = true) :
    (q.length ≤ u.length ∧ hasPre q u = true) ∨
    (u.length < q.length ∧ List.take u.length q = u ∧
      hasPre (List.drop u.length q) v = true) := by
  induction u generalizing q with
  | nil =>
    cases q with
    | nil => exact Or.inl (by simp [hasPre])
    | cons d q' => exact Or.inr (by simpa using h)
  | cons a u' ih =>
    cases q with
    | nil => exact Or.inl (by simp [hasPre])
    | cons d q' =>
      simp only [List.cons_append, hasPre, Bool.and_eq_true, beq_iff_eq] at h
      rcases ih h.2 with ⟨h1, h2⟩ | ⟨h1, h2, h3⟩
      · exact Or.inl ⟨by simpa using h1, by simp [hasPre, h.1, h2]⟩
      · refine Or.inr ⟨by simpa using h1, ?_, by simpa using h3⟩
        simp [List.take_cons, h.1, h2]

theorem hasSub_append {q u v : List Char} (h : hasSub q (u ++ v) = true) :
    hasSub q u = true ∨ hasSub q v = true ∨
    (∃ k, 0 < k ∧ k < q.length ∧ List.take k q = lastK k u ∧
      hasPre (List.drop k q) v = true) := by
  induction u with
  | nil => exact Or.inr (Or.inl (by simpa using h))
  | cons c u' ih =>
    simp only [List.cons_append, hasSub, Bool.or_eq_true] at h
    rcases h with h | h
    · rcases hasPre_append_split (u := c :: u') (v := v) h with ⟨h1, h2⟩ | ⟨h1, h2, h3⟩
      · exact Or.inl (by simp [hasSub, h2])
      · refine Or.inr (Or.inr ⟨u'.length + 1, by omega, by simpa using h1, ?_, ?_⟩)
        · have h2' : List.take (u'.length + 1) q = c :: u' := by simpa using h2
          rw [h2']
          simp [lastK]
        · simpa using h3
    · rcases ih h with h | h | ⟨k, hk0, hkq, htake, hpre⟩
      · exact Or.inl (by simp [hasSub, h])
      · exact Or.inr (Or.inl h)
      · refine Or.inr (Or.inr ⟨k, hk0, hkq, ?_, hpre⟩)
        have hlen : (List.take k q).length = k := by
          simp [List.length_take]
          omega
        have hku : k ≤ u'.length := by
          by_contra hgt
          push_neg at hgt
          have : (lastK k u').length = u'.length := by
            simp [lastK]
            omega
          rw [htake] at hlen
          omega
        rw [htake]
        simp only [lastK, List.length_cons]
        have : u'.length + 1 - k = (u'.length - k) + 1 := by omega
        rw [this, List.drop_succ_cons]

theorem noHeadTailClash_spec {q rep : List Char} (h : noHeadTailClash q rep = true) :
    ∀ k, 0 < k → k < q.length → List.take k q ≠ lastK k rep := by
  intro k hk0 hkq heq
  have := List.all_eq_true.mp h k (List.mem_range.mpr hkq)
  simp only [Bool.or_eq_true, beq_iff_eq, Bool.not_eq_true', beq_eq_false_iff_ne] at this
  rcases this with h0 | hne
  · omega
  · exact hne heq

theorem noTailHeadClash_spec {q rep : List Char} (h : noTailHeadClash q rep = true) :
    ∀ k, 0 < k → k < q.length → lastK k q ≠ List.take k rep := by
  intro k hk0 hkq heq
  have := List.all_eq_true.mp h k (List.mem_range.mpr hkq)
  simp only [Bool.or_eq_true, beq_iff_eq, Bool.not_eq_true', beq_eq_false_iff_ne] at this
  rcases this with h0 | hne
  · omega
  · exact hne heq

theorem subst_nil (pat rep : List Char) : subst pat rep [] = [] := by
  simp [subst]

theorem subst_cons_match {pat : List Char} (rep : List Char) {c : Char} {cs : List Char}
    (h : pat ≠ [] ∧ hasPre pat (c :: cs) = true) :
    subst pat rep (c :: cs) = rep ++ subst pat rep (List.drop (pat.length - 1) cs) := by
  rw [subst, if_pos h]

theorem subst_cons_nomatch {pat : List Char} (rep : List Char) {c : Char} {cs : List Char}
    (h : ¬(pat ≠ [] ∧ hasPre pat (c :: cs) = true)) :
    subst pat rep (c :: cs) = c :: subst pat rep cs := by
  rw [subst, if_neg h]

theorem hasSub_cons_false {q : List Char} {c : Char} {cs : List Char}
    (h : hasSub q (c :: cs) = false) :
    hasPre q (c :: cs) = false ∧ hasSub q cs = false := by
  simp only [hasSub, Bool.or_eq_false_iff] at h
  exact h

theorem hasSub_drop_false {q s : List Char} {n : Nat} (h : hasSub q s = false) :
    hasSub q (List.drop n s) = false := by
  by_contra h'
  rw [Bool.not_eq_false] at h'
  simpa [h] using hasSub_drop h'

theorem hasSub_nil_of_ne {q : List Char} (hq : q ≠ []) : hasSub q [] = false := by
  cases q with
  | nil => exact absurd rfl hq
  | cons d q' => simp [hasSub, List.isEmpty]

/-- A nonempty proper trailing segment of `q` never starts `rep ++ Y`, under
the clash-freeness conditions (it would have to be a leading segment of `rep`
or contain `rep` inside `q`). -/
theorem hasPre_dropTail_append_false {rep q : List Char}
    (h3 : ∀ k, 0 < k → k < q.length → lastK k q ≠ List.take k rep)
    (h4 : hasSub rep q = false)
    {j : Nat} (hj0 : 0 < j) (hjq : j < q.length) (Y : List Char) :
    hasPre (List.drop j q) (rep ++ Y) = false := by
  by_contra hcon
  rw [Bool.not_eq_false] at hcon
  rcases hasPre_append_split hcon with ⟨_, h2⟩ | ⟨_, h2, _⟩
  · have hlen : (List.drop j q).length = q.length - j := by simp
    have htake : List.take (q.length - j) rep = List.drop j q := by
      rw [← hlen]; exact hasPre_imp_take h2
    apply h3 (q.length - j) (by omega) (by omega)
    have hlast : lastK (q.length - j) q = List.drop j q := by
      unfold lastK
      congr 1
      omega
    rw [hlast, htake]
  · have hp : hasPre rep (List.drop j q) = true := by
      rw [← h2]; exact hasPre_take _ _
    have := hasSub_drop (hasSub_of_hasPre hp)
    simp [h4] at this

/-- `subst pat rep` creates no occurrence of an unrelated pattern `q`: if `q`
does not occur in `s` (and cannot be assembled from the replacement text) it
does not occur in the output.  The second conjunct strengthens the induction:
no nonempty proper trailing segment of `q` newly starts the output. -/
theorem subst_no_create (pat rep q : List Char)
    (h1 : hasSub q rep = false)
    (h2 : ∀ k, 0 < k → k < q.length → List.take k q ≠ lastK k rep)
    (h3 : ∀ k, 0 < k → k < q.length → lastK k q ≠ List.take k rep)
    (h4 : hasSub rep q = false) :
    ∀ n s, s.length ≤ n →
      (hasSub q s = false → hasSub q (subst pat rep s) = false) ∧
      (∀ j, 0 < j → j < q.length →
        hasPre (List.drop j q) s = false →
        hasPre (List.drop j q) (subst pat rep s) = false) := by
  intro n
  induction n with
  | zero =>
    intro s hs
    have hnil : s = [] := List.eq_nil_of_length_eq_zero (Nat.le_zero.mp hs)
    subst hnil
    rw [subst_nil]
    exact ⟨fun h => h, fun _ _ _ h => h⟩
  | succ n ih =>
    intro s hs
    cases s with
    | nil =>
      rw [subst_nil]
      exact ⟨fun h => h, fun _ _ _ h => h⟩
    | cons c cs =>
      have hcs : cs.length ≤ n := by simpa using hs
      by_cases hm : pat ≠ [] ∧ hasPre pat (c :: cs) = true
      · -- a replacement happens at the head
        rw [subst_cons_match rep hm]
        have hdroplen : (List.drop (pat.length - 1) cs).length ≤ n := by
          simp only [List.length_drop]
          omega
        constructor
        · intro hno
          have hno' : hasSub q (List.drop (pat.length - 1) cs) = false := by
            have : hasSub q cs = false := (hasSub_cons_false hno).2
            exact hasSub_drop_false this
          have hY : hasSub q (subst pat rep (List.drop (pat.length - 1) cs)) = false :=
            (ih _ hdroplen).1 hno'
          by_contra hcon
          rw [Bool.not_eq_false] at hcon
          rcases hasSub_append hcon with h | h | ⟨k, hk0, hkq, htake, _⟩
          · simp [h1] at h
          · simp [hY] at h
          · exact h2 k hk0 hkq htake
        · intro j hj0 hjq _
          exact hasPre_dropTail_append_false h3 h4 hj0 hjq _
      · -- no replacement at the head
        rw [subst_cons_nomatch rep hm]
        constructor
        · intro hno
          obtain ⟨hnopre, hnosub⟩ := hasSub_cons_false hno
          have hX : hasSub q (subst pat rep cs) = false := (ih _ hcs).1 hnosub
          simp only [hasSub, Bool.or_eq_false_iff]
          refine ⟨?_, hX⟩
          cases q with
          | nil => simp [hasPre] at hnopre
          | cons d q' =>
            simp only [hasPre, Bool.and_eq_false_iff] at hnopre ⊢
            rcases hnopre with hdc | hq'
            · exact Or.inl hdc
            · by_cases hq'nil : q' = []
              · rw [hq'nil] at hq'
                simp [hasPre] at hq'
              · refine Or.inr ?_
                have hq'len : 1 < (d :: q').length := by
                  have := List.length_pos.mpr hq'nil
                  simp
                  omega
                have hdrop1 : List.drop 1 (d :: q') = q' := by simp
                have := (ih _ hcs).2 1 (by omega) hq'len
                rw [hdrop1] at this
                exact this hq'
        · intro j hj0 hjq hnopre
          have hlen : (List.drop j q).length = q.length - j := by simp
          have hne : List.drop j q ≠ [] := by
            intro hnil
            rw [hnil] at hlen
            simp at hlen
            omega
          obtain ⟨d, t', hdq⟩ := List.exists_cons_of_ne_nil hne
          rw [hdq] at hnopre ⊢
          · simp only [hasPre, Bool.and_eq_false_iff] at hnopre ⊢
            rcases hnopre with hdc | ht'
            · exact Or.inl hdc
            · by_cases ht'nil : t' = []
              · rw [ht'nil] at ht'
                simp [hasPre] at ht'
              · refine Or.inr ?_
                have hdropsucc : List.drop (j + 1) q = t' := by
                  have h11 : List.drop (j + 1) q = List.drop 1 (List.drop j q) := by
                    rw [List.drop_drop]
                  rw [h11, hdq]
                  simp
                have hjq' : j + 1 < q.length := by
                  have h12 : (List.drop (j + 1) q).length = q.length - (j + 1) := by simp
                  rw [hdropsucc] at h12
                  have := List.length_pos.mpr ht'nil
                  omega
                have := (ih _ hcs).2 (j + 1) (by omega) hjq'
                rw [hdropsucc] at this
                exact this ht'

/-- `subst pat rep` leaves no occurrence of `pat` itself in its output, under
the clash-freeness conditions relating `pat` and `rep`.  The second conjunct
strengthens the induction exactly as in `subst_no_create`. -/
theorem subst_removes (pat rep : List Char) (hpat : pat ≠ [])
    (g1 : hasSub pat rep = false)
    (g2 : ∀ k, 0 < k → k < pat.length → List.take k pat ≠ lastK k rep)
    (g3 : ∀ k, 0 < k → k < pat.length → lastK k pat ≠ List.take k rep)
    (g4 : hasSub rep pat = false) :
    ∀ n s, s.length ≤ n →
      hasSub pat (subst pat rep s) = false ∧
      (∀ j, 0 < j → j < pat.length →
        hasPre (List.drop j pat) s = false →
        hasPre (List.drop j pat) (subst pat rep s) = false) := by
  intro n
  induction n with
  | zero =>
    intro s hs
    have hnil : s = [] := List.eq_nil_of_length_eq_zero (Nat.le_zero.mp hs)
    subst hnil
    rw [subst_nil]
    exact ⟨hasSub_nil_of_ne hpat, fun _ _ _ h => h⟩
  | succ n ih =>
    intro s hs
    cases s with
    | nil =>
      rw [subst_nil]
      exact ⟨hasSub_nil_of_ne hpat, fun _ _ _ h => h⟩
    | cons c cs =>
      have hcs : cs.length ≤ n := by simpa using hs
      by_cases hm : pat ≠ [] ∧ hasPre pat (c :: cs) = true
      · rw [subst_cons_match rep hm]
        have hdroplen : (List.drop (pat.length - 1) cs).length ≤ n := by
          simp only [List.length_drop]
          omega
        constructor
        · have hY : hasSub pat (subst pat rep (List.drop (pat.length - 1) cs)) = false :=
            (ih _ hdroplen).1
          by_contra hcon
          rw [Bool.not_eq_false] at hcon
          rcases hasSub_append hcon with h | h | ⟨k, hk0, hkq, htake, _⟩
          · simp [g1] at h
          · simp [hY] at h
          · exact g2 k hk0 hkq htake
        · intro j hj0 hjq _
          exact hasPre_dropTail_append_false g3 g4 hj0 hjq _
      · rw [subst_cons_nomatch rep hm]
        have hnopre : hasPre pat (c :: cs) = false := by
          rcases not_and_or.mp hm with h | h
          · exact absurd hpat (by simpa using h)
          · simpa using h
        constructor
        · have hX : hasSub pat (subst pat rep cs) = false := (ih _ hcs).1
          simp only [hasSub, Bool.or_eq_false_iff]
          refine ⟨?_, hX⟩
          obtain ⟨d, q', hq⟩ := List.exists_cons_of_ne_nil hpat
          subst hq
          simp only [hasPre, Bool.and_eq_false_iff] at hnopre ⊢
          rcases hnopre with hdc | hq'
          · exact Or.inl hdc
          · by_cases hq'nil : q' = []
            · rw [hq'nil] at hq'
              simp [hasPre] at hq'
            · refine Or.inr ?_
              have hq'len : 1 < (d :: q').length := by
                have := List.length_pos.mpr hq'nil
                simp
                omega
              have hdrop1 : List.drop 1 (d :: q') = q' := by simp
              have := (ih _ hcs).2 1 (by omega) hq'len
              rw [hdrop1] at this
              exact this hq'
        · intro j hj0 hjq hnopre'
          have hlen : (List.drop j pat).length = pat.length - j := by simp
          have hne : List.drop j pat ≠ [] := by
            intro hnil
            rw [hnil] at hlen
            simp at hlen
            omega
          obtain ⟨d, t', hdq⟩ := List.exists_cons_of_ne_nil hne
          rw [hdq] at hnopre' ⊢
          simp only [hasPre, Bool.and_eq_false_iff] at hnopre' ⊢
          rcases hnopre' with hdc | ht'
          · exact Or.inl hdc
          · by_cases ht'nil : t' = []
            · rw [ht'nil] at ht'
              simp [hasPre] at ht'
            · refine Or.inr ?_
              have hdropsucc : List.drop (j + 1) pat = t' := by
                have h11 : List.drop (j + 1) pat = List.drop 1 (List.drop j pat) := by
                  rw [List.drop_drop]
                rw [h11, hdq]
                simp
              have hjq' : j + 1 < pat.length := by
                have h12 : (List.drop (j + 1) pat).length = pat.length - (j + 1) := by simp
                rw [hdropsucc] at h12
                have := List.length_pos.mpr ht'nil
                omega
              have := (ih _ hcs).2 (j + 1) (by omega) hjq'
              rw [hdropsucc] at this
              exact this ht'

/-- If `pat` does not occur in `s`, `subst pat rep` is the identity on `s`. -/
theorem subst_id_of_no_occ {pat : List Char} (rep : List Char) :
    ∀ s : List Char, hasSub pat s = false → subst pat rep s = s := by
  intro s
  induction s with
  | nil => intro _; exact subst_nil _ _
  | cons c cs ih =>
    intro h
    obtain ⟨hpre, hsub⟩ := hasSub_cons_false h
    have hm : ¬(pat ≠ [] ∧ hasPre pat (c :: cs) = true) := by
      intro ⟨_, hp⟩
      rw [hpre] at hp
      exact absurd hp (by simp)
    rw [subst_cons_nomatch rep hm, ih hsub]

/-- After the full `_clean_sql` rewrite chain, the pattern
`"Order Details"` no longer occurs. -/
theorem chain_no_patOrderDetails (l : List Char) :
    hasSub patOrderDetails (subst patCustomerName repCompanyName
      (subst patOrderItems repOrderItems (subst patOrderDetails repOrderItems l))) = false := by
  have h0 : hasSub patOrderDetails (subst patOrderDetails repOrderItems l) = false :=
    (subst_removes patOrderDetails repOrderItems (by decide) (by decide)
      (noHeadTailClash_spec (by decide)) (noTailHeadClash_spec (by decide)) (by decide)
      l.length l le_rfl).1
  have h1 : hasSub patOrderDetails
      (subst patOrderItems repOrderItems (subst patOrderDetails repOrderItems l)) = false :=
    (subst_no_create patOrderItems repOrderItems patOrderDetails (by decide)
      (noHeadTailClash_spec (by decide)) (noTailHeadClash_spec (by decide)) (by decide)
      _ _ le_rfl).1 h0
  exact (subst_no_create patCustomerName repCompanyName patOrderDetails (by decide)
    (noHeadTailClash_spec (by decide)) (noTailHeadClash_spec (by decide)) (by decide)
    _ _ le_rfl).1 h1

/-- After the full `_clean_sql` rewrite chain, the pattern `Order_Items` no
longer occurs. -/
theorem chain_no_patOrderItems (l : List Char) :
    hasSub patOrderItems (subst patCustomerName repCompanyName
      (subst patOrderItems repOrderItems (subst patOrderDetails repOrderItems l))) = false := by
  have h0 : hasSub patOrderItems
      (subst patOrderItems repOrderItems (subst patOrderDetails repOrderItems l)) = false :=
    (subst_removes patOrderItems repOrderItems (by decide) (by decide)
      (noHeadTailClash_spec (by decide)) (noTailHeadClash_spec (by decide)) (by decide)
      _ _ le_rfl).1
  exact (subst_no_create patCustomerName repCompanyName patOrderItems (by decide)
    (noHeadTailClash_spec (by decide)) (noTailHeadClash_spec (by decide)) (by decide)
    _ _ le_rfl).1 h0

/-- After the full `_clean_sql` rewrite chain, the pattern `CustomerName` no
longer occurs. -/
theorem chain_no_patCustomerName (l : List Char) :
    hasSub patCustomerName (subst patCustomerName repCompanyName
      (subst patOrderItems repOrderItems (subst patOrderDetails repOrderItems l))) = false :=
  (subst_removes patCustomerName repCompanyName (by decide) (by decide)
    (noHeadTailClash_spec (by decide)) (noTailHeadClash_spec (by decide)) (by decide)
    _ _ le_rfl).1

/-- C9: the query-text normalization (`NL2SQLModule._clean_sql`) is
idempotent: for every input SQL string, applying the three rewrite rules
twice yields the same result as applying them once. -/
theorem C9_clean_sql_idempotent (s : String) :
    clean_sql (clean_sql s) = clean_sql s := by
  unfold clean_sql
  have hd : ∀ l : List Char, (String.mk l).data = l := fun _ => rfl
  rw [hd]
  rw [subst_id_of_no_occ _ _ (chain_no_patOrderDetails s.data)]
  rw [subst_id_of_no_occ _ _ (chain_no_patOrderItems s.data)]
  rw [subst_id_of_no_occ _ _ (chain_no_patCustomerName s.data)]

/-! ## Confidence bounds and invariant preservation -/

theorem calculate_confidence_bounds (sr : Option SQLResult) (docs : List Doc)
    (rc : Nat) :
    1 / 10 ≤ calculate_confidence sr docs rc ∧ calculate_confidence sr docs rc ≤ 1 := by
  unfold calculate_confidence
  refine ⟨le_max_left _ _, ?_⟩
  apply max_le
  · norm_num
  · exact min_le_left _ _

theorem repairNode_rc (st : AgentState) :
    (repairNode st).repair_count = st.repair_count + 1 := by
  simp only [repairNode]
  split
  · rfl
  · split <;> rfl

theorem repairNode_conf_bounds {st : AgentState}
    (h : 1 / 10 ≤ st.confidence ∧ st.confidence ≤ 1) :
    1 / 10 ≤ (repairNode st).confidence ∧ (repairNode st).confidence ≤ 1 := by
  simp only [repairNode]
  split
  · refine ⟨le_max_left _ _, ?_⟩
    apply max_le
    · norm_num
    · nlinarith [h.1, h.2]
  · split
    · refine ⟨le_max_left _ _, ?_⟩
      apply max_le
      · norm_num
      · have hpow1 : ((9 : Rat) / 10) ^ (st.repair_count + 1) ≤ 1 :=
          pow_le_one₀ (by norm_num) (by norm_num)
        have hpow0 : (0 : Rat) ≤ ((9 : Rat) / 10) ^ (st.repair_count + 1) :=
          pow_nonneg (by norm_num) _
        nlinarith [h.2]
    · exact h

theorem should_retrieve_cases (st : AgentState) :
    should_retrieve st = .retriever ∨ should_retrieve st = .planner := by
  unfold should_retrieve
  split <;> simp

theorem should_plan_cases (st : AgentState) :
    should_plan st = .planner ∨ should_plan st = .synthesizer := by
  unfold should_plan
  split <;> simp

theorem should_execute_sql_cases (st : AgentState) :
    should_execute_sql st = .nl2sql ∨ should_execute_sql st = .synthesizer := by
  unfold should_execute_sql
  split <;> simp

theorem should_repair_cases (st : AgentState) :
    should_repair st = .terminal ∨
    (should_repair st = .repair ∧ st.repair_count ≤ 1) := by
  by_cases hge : st.repair_count ≥ 2
  · left
    simp [should_repair, hge]
  · by_cases herr : ((detect_sql_error st.sql_result).isSome
        || (detect_format_error st.final_answer st.format_hint).isSome) = true
    · right
      refine ⟨?_, by omega⟩
      simp [should_repair, hge, herr]
    · left
      simp [should_repair, hge, herr]

theorem after_repair_cases (st : AgentState) :
    after_repair st = .crashed ∨ after_repair st = .nl2sql ∨
    after_repair st = .synthesizer := by
  unfold after_repair
  cases st.error
  · simp
  · split
    · simp
    · split <;> simp

/-- One engine step preserves the inductive invariant. -/
theorem step_inv {m m' : Mach} (hstep : Step m m') (hinv : EngineInv m) :
    EngineInv m' := by
  obtain ⟨i, hi⟩ := hstep
  obtain ⟨pc, st, k, steps⟩ := m
  obtain ⟨h1, h2, h3, h4, h5, h6⟩ := hinv
  simp only at h1 h2 h3 h4 h5 h6
  cases pc <;> cases i <;> simp only [stepF, Option.some.injEq] at hi <;>
    (try exact absurd hi (by simp)) <;> subst hi
  case router.irout s =>
    rcases should_retrieve_cases (routerNode st s) with h | h <;> rw [h] <;>
      simp_all [EngineInv, routerNode, nodeWeight] <;> omega
  case retriever.iretr docs =>
    rcases should_plan_cases (retrieverNode st docs) with h | h <;> rw [h] <;>
      simp_all [EngineInv, retrieverNode, nodeWeight] <;> omega
  case planner.iplan s =>
    rcases should_execute_sql_cases (plannerNode st s) with h | h <;> rw [h] <;>
      simp_all [EngineInv, plannerNode, nodeWeight] <;> omega
  case nl2sql.insql s =>
    simp_all [EngineInv, nl2sqlNode, nodeWeight]
    try omega
  case executor.iexec r =>
    simp_all [EngineInv, executorNode, nodeWeight]
    try omega
  case synthesizer.isynth a e c =>
    have hb := calculate_confidence_bounds st.sql_result st.retrieved_docs st.repair_count
    rcases should_repair_cases (synthesizerNode st a e c) with h | ⟨h, hrc⟩ <;> rw [h] <;>
      simp_all [EngineInv, synthesizerNode, nodeWeight] <;> omega
  case repair.irep =>
    have hrc1 : st.repair_count ≤ 1 := h2 rfl
    have hcb : 1 / 10 ≤ st.confidence ∧ st.confidence ≤ 1 := h6 (Or.inl rfl)
    have hrc' := repairNode_rc st
    have hcb' := repairNode_conf_bounds hcb
    rcases after_repair_cases (repairNode st) with h | h | h <;> rw [h] <;>
      simp_all [EngineInv, nodeWeight] <;> omega

theorem init_inv (q fh : String) : EngineInv (initMach q fh) := by
  refine ⟨by simp [initMach, initState], by simp [initMach], ?_, ?_, ?_, ?_⟩
  · simp [initMach, initState]
  · simp [initMach, initState, nodeWeight]
  · exact Or.inl rfl
  · simp [initMach]

theorem reach_inv {q fh : String} {m : Mach}
    (h : Reach (initMach q fh) m) : EngineInv m := by
  induction h with
  | refl => exact init_inv q fh
  | tail _ hstep ih => exact step_inv hstep ih

theorem Reach.head {a b c : Mach} (hab : Step a b) (hbc : Reach b c) :
    Reach a c := by
  induction hbc with
  | refl => exact Reach.tail (Reach.refl _) hab
  | tail _ hs ih => exact Reach.tail ih hs

theorem runF_reach : ∀ (l : List Inp) (m m' : Mach),
    runF m l = some m' → Reach m m' := by
  intro l
  induction l with
  | nil =>
    intro m m' h
    simp only [runF, Option.some.injEq] at h
    subst h
    exact Reach.refl m
  | cons i is ih =>
    intro m m' h
    simp only [runF] at h
    cases hs : stepF m i with
    | none =>
      rw [hs] at h
      exact absurd h (by simp)
    | some m1 =>
      rw [hs] at h
      exact Reach.head ⟨i, hs⟩ (ih m1 m' h)

theorem runF_reach_getD {m0 : Mach} {l : List Inp}
    (h : (runF m0 l).isSome = true) (d : Mach) :
    Reach m0 ((runF m0 l).getD d) := by
  obtain ⟨m, hm⟩ := Option.isSome_iff_exists.mp h
  rw [hm]
  exact runF_reach l m0 m hm

theorem roundHalfEven_ge {y : Rat} {lo : Int} (hlo : (lo : Rat) ≤ y) :
    lo ≤ roundHalfEven y := by
  have hfl : lo ≤ ⌊y⌋ := Int.le_floor.mpr hlo
  show lo ≤ (if y - (⌊y⌋ : Rat) < 1 / 2 then ⌊y⌋
    else if 1 / 2 < y - (⌊y⌋ : Rat) then ⌊y⌋ + 1
    else if ⌊y⌋ % 2 = 0 then ⌊y⌋ else ⌊y⌋ + 1)
  by_cases h1 : y - (⌊y⌋ : Rat) < 1 / 2
  · rw [if_pos h1]; exact hfl
  · rw [if_neg h1]
    by_cases h2 : 1 / 2 < y - (⌊y⌋ : Rat)
    · rw [if_pos h2]; omega
    · rw [if_neg h2]
      by_cases h3 : ⌊y⌋ % 2 = 0
      · rw [if_pos h3]; exact hfl
      · rw [if_neg h3]; omega

theorem roundHalfEven_le {y : Rat} {hi : Int} (hhi : y ≤ (hi : Rat)) :
    roundHalfEven y ≤ hi := by
  have hfu : (⌊y⌋ : Rat) ≤ y := Int.floor_le y
  have hf_le : ⌊y⌋ ≤ hi := by
    have : (⌊y⌋ : Rat) ≤ (hi : Rat) := le_trans hfu hhi
    exact_mod_cast this
  show (if y - (⌊y⌋ : Rat) < 1 / 2 then ⌊y⌋
    else if 1 / 2 < y - (⌊y⌋ : Rat) then ⌊y⌋ + 1
    else if ⌊y⌋ % 2 = 0 then ⌊y⌋ else ⌊y⌋ + 1) ≤ hi
  by_cases h1 : y - (⌊y⌋ : Rat) < 1 / 2
  · rw [if_pos h1]; exact hf_le
  · rw [if_neg h1]
    by_cases h2 : 1 / 2 < y - (⌊y⌋ : Rat)
    · rw [if_pos h2]
      have hlt : (⌊y⌋ : Rat) < (hi : Rat) := by linarith
      have := Int.cast_lt.mp hlt
      omega
    · rw [if_neg h2]
      have heq : y - (⌊y⌋ : Rat) = 1 / 2 := le_antisymm (not_lt.mp h2) (not_lt.mp h1)
      by_cases h3 : ⌊y⌋ % 2 = 0
      · rw [if_pos h3]; exact hf_le
      · rw [if_neg h3]
        have hlt : (⌊y⌋ : Rat) < (hi : Rat) := by linarith
        have := Int.cast_lt.mp hlt
        omega

theorem pyRound2_bounds {x : Rat} (h1 : 1 / 10 ≤ x) (h2 : x ≤ 1) :
    1 / 10 ≤ pyRound2 x ∧ pyRound2 x ≤ 1 := by
  have hlo : ((10 : Int) : Rat) ≤ x * 100 := by push_cast; linarith
  have hhi : x * 100 ≤ ((100 : Int) : Rat) := by push_cast; linarith
  have ha := roundHalfEven_ge hlo
  have hb := roundHalfEven_le hhi
  have ha' : (10 : Rat) ≤ (roundHalfEven (x * 100) : Rat) := by exact_mod_cast ha
  have hb' : (roundHalfEven (x * 100) : Rat) ≤ 100 := by exact_mod_cast hb
  unfold pyRound2
  constructor <;> [linarith; linarith]

/-- C2: on every run of the engine — regardless of whether a detected
sql-family or format-family error persists — the Synthesizer node executes
at most 3 times, and every run stops within a fixed step bound (so the
repair loop is bounded and always terminates). -/
theorem C2_synthesizer_at_most_three (q fh : String) (m : Mach)
    (h : Reach (initMach q fh) m) : m.synthCount ≤ 3 ∧ m.steps ≤ 18 := by
  have hinv := reach_inv h
  obtain ⟨pc, st, k, steps⟩ := m
  obtain ⟨h1, _, h3, h4, _, _⟩ := hinv
  show k ≤ 3 ∧ steps ≤ 18
  have h1' : st.repair_count ≤ 2 := h1
  have h4' : steps + nodeWeight pc + 4 * (2 - st.repair_count) ≤ 18 := h4
  have hw : 0 ≤ nodeWeight pc := Nat.zero_le _
  cases pc <;>
    first
      | (have h3' : k ≤ st.repair_count + 1 := h3; exact ⟨by omega, by omega⟩)
      | (have h3' : k ≤ st.repair_count := h3; exact ⟨by omega, by omega⟩)

/-- C2 witness: the bound holds at a concrete reachable configuration. -/
theorem C2_witness :
    (initMach "q" "str").synthCount ≤ 3 ∧ (initMach "q" "str").steps ≤ 18 :=
  C2_synthesizer_at_most_three "q" "str" _ (Reach.refl _)

/-- C10: in every reachable engine configuration `repair_count ≤ 2`; the
repair node only ever runs with `repair_count ≤ 1`, so after its increment
the counter is at most 2 and the branch of `repair_node` guarded by
`repair_count > 2` is unreachable from the initial state. -/
theorem C10_repair_count_bounded (q fh : String) (m : Mach)
    (h : Reach (initMach q fh) m) :
    m.st.repair_count ≤ 2 ∧
    (m.pc = Node.repair → ¬((repairNode m.st).repair_count > 2)) := by
  have hinv := reach_inv h
  obtain ⟨h1, h2, _, _, _, _⟩ := hinv
  refine ⟨h1, fun hpc => ?_⟩
  have := h2 hpc
  rw [repairNode_rc]
  omega

/-- C10 witness: the invariant holds at a concrete reachable configuration. -/
theorem C10_witness :
    (initMach "q" "str").st.repair_count ≤ 2 ∧
    ((initMach "q" "str").pc = Node.repair →
      ¬((repairNode (initMach "q" "str").st).repair_count > 2)) :=
  C10_repair_count_bounded "q" "str" _ (Reach.refl _)

/-- C8: whenever a stage of the engine has set the confidence field its
value lies in `[0.1, 1.0]` (the initial, not-yet-set value is `0.0`); once
the repair guard or the terminal state is reached the bound holds
unconditionally; the batch driver's rounding on the success path and its
`0.1` fallback preserve the bound. -/
theorem C8_confidence_invariant (q fh : String) (m : Mach)
    (h : Reach (initMach q fh) m) :
    (m.st.confidence = 0 ∨
      (1 / 10 ≤ m.st.confidence ∧ m.st.confidence ≤ 1)) ∧
    ((m.pc = Node.repair ∨ m.pc = Node.terminal) →
      (1 / 10 ≤ m.st.confidence ∧ m.st.confidence ≤ 1)) ∧
    (m.pc = Node.terminal →
      1 / 10 ≤ driver_confidence m.st ∧ driver_confidence m.st ≤ 1) ∧
    (1 / 10 ≤ driver_fallback_confidence ∧ driver_fallback_confidence ≤ 1) := by
  have hinv := reach_inv h
  obtain ⟨_, _, _, _, h5, h6⟩ := hinv
  refine ⟨h5, h6, fun hterm => ?_, by norm_num [driver_fallback_confidence]⟩
  have hb := h6 (Or.inr hterm)
  exact pyRound2_bounds hb.1 hb.2

/-- C8 witness: the bounds hold at a concrete reachable configuration. -/
theorem C8_witness :
    ((initMach "q" "str").st.confidence = 0 ∨
      (1 / 10 ≤ (initMach "q" "str").st.confidence ∧
        (initMach "q" "str").st.confidence ≤ 1)) ∧
    (((initMach "q" "str").pc = Node.repair ∨
        (initMach "q" "str").pc = Node.terminal) →
      (1 / 10 ≤ (initMach "q" "str").st.confidence ∧
        (initMach "q" "str").st.confidence ≤ 1)) ∧
    ((initMach "q" "str").pc = Node.terminal →
      1 / 10 ≤ driver_confidence (initMach "q" "str").st ∧
        driver_confidence (initMach "q" "str").st ≤ 1) ∧
    (1 / 10 ≤ driver_fallback_confidence ∧ driver_fallback_confidence ≤ 1) :=
  C8_confidence_invariant "q" "str" _ (Reach.refl _)

/-- C3: the synthesizer's confidence equals the spec formula
`clamp(base * 0.9^repair_count, 0.1, 1.0)` with `base = 0.5 + 0.3` for
non-empty query rows `+ 0.2` for non-empty documents, and the value stored
by the synthesizer node is a function of exactly (rows non-empty, documents
non-empty, repair_count) — never of model output. -/
theorem C3_confidence_formula :
    (∀ (sr : Option SQLResult) (docs : List Doc) (rc : Nat),
      calculate_confidence sr docs rc
        = confidence_spec (hasRowsB sr) (!docs.isEmpty) rc) ∧
    (∀ (st : AgentState) (a : PyVal) (e c : String),
      (synthesizerNode st a e c).confidence
        = calculate_confidence st.sql_result st.retrieved_docs st.repair_count) := by
  constructor
  · intro sr docs rc
    cases h1 : hasRowsB sr <;> cases h2 : docs.isEmpty <;>
      simp [calculate_confidence, confidence_spec, h1, h2]
  · intro st a e c
    rfl

/-- C1 (code evaluated at the failing input): in the reachable run where the
store reports `no such table: t`, the classification is the query-family tag
`sql_table_error: ...` (which does start with `sql_`), yet the post-repair
routing returns `synthesizer`, not `nl2sql` — because `after_repair` tests
the *stored* raw message (`no such table: t`), and the classified tag is
never written into the state's error field by any node. -/
theorem C1_routing_ignores_classified_tag :
    (let m := (runF (initMach "q" "str")
        [.irout "sql", .iplan "\x7b\x7d", .insql "SELECT a FROM t",
         .iexec ⟨[], [], some "no such table: t"⟩,
         .isynth (vStr "x") "e" "[]"]).getD (initMach "" "");
      Reach (initMach "q" "str") m ∧
      m.pc = Node.repair ∧
      detect_sql_error m.st.sql_result = some "sql_table_error: no such table: t" ∧
      strStarts "sql_" "sql_table_error: no such table: t" = true ∧
      m.st.error = some "no such table: t" ∧
      strStarts "sql_" "no such table: t" = false ∧
      after_repair (repairNode m.st) = Node.synthesizer) := by
  exact ⟨runF_reach_getD (by rfl) _, by rfl, by rfl, by rfl, by rfl, by rfl, by rfl⟩

/-- C5 (code evaluated at the failing input): a question routed `rag` whose
synthesized answer fails `list` validation enters repair with the state's
error field still `None`; `after_repair` then evaluates
`state.get("error", "").startswith(...)` on the stored `None` and raises
`AttributeError` — the run crashes instead of terminating with an answer. -/
theorem C5_repair_routing_crashes_on_none_error :
    (let m := (runF (initMach "q" "list")
        [.irout "rag", .iretr [], .isynth (vStr "5") "e" "[]", .irep]).getD
        (initMach "" "");
      Reach (initMach "q" "list") m ∧
      m.pc = Node.crashed ∧
      m.st.error = none ∧
      (detect_format_error (format_answer (vStr "5") "list") "list").isSome = true ∧
      detect_sql_error m.st.sql_result = none) := by
  exact ⟨runF_reach_getD (by rfl) _, by rfl, by rfl, by rfl, by rfl⟩

/-- C4 counterexample: a run whose sql error persists through every repair
attempt reaches the terminal state with the error field still holding the
raw message (not cleared) and with confidence `0.5 * 0.9^2 = 0.405` — the
synthesizer's decayed value, not a value multiplied by `0.3` — refuting the
claimed force-accept behaviour at the bound. -/
theorem C4_counterexample :
    (let m := (runF (initMach "q" "str")
        [.irout "sql", .iplan "\x7b\x7d", .insql "SELECT a FROM t",
         .iexec ⟨[], [], some "no such table: t"⟩,
         .isynth (vStr "x") "e" "[]", .irep, .isynth (vStr "x") "e" "[]",
         .irep, .isynth (vStr "x") "e" "[]"]).getD (initMach "" "");
      Reach (initMach "q" "str") m ∧
      m.pc = Node.terminal ∧
      detect_sql_error m.st.sql_result = some "sql_table_error: no such table: t" ∧
      m.st.error = some "no such table: t" ∧
      ¬ m.st.error = none ∧
      m.st.confidence = 81 / 200) := by
  refine ⟨runF_reach_getD (by rfl) _, by rfl, by rfl, by rfl,
    by intro hno; exact Option.noConfusion hno, ?_⟩
  show calculate_confidence (some ⟨[], [], some "no such table: t"⟩) ([] : List Doc) 2 = 81 / 200
  unfold calculate_confidence hasRowsB
  norm_num

/-- C4 amended: once the repair bound is reached (`repair_count = 2` at a
synthesizer execution), the run terminates immediately after that pass via
the repair guard — regardless of whether the detected error persists — with
the synthesizer's confidence `calculate_confidence(…, 2)` (decayed by
`0.9^2`, not multiplied by `0.3`) and with the error field left unchanged
(not cleared); the force-accept branch of the repair node never runs. -/
theorem C4_bound_terminates_via_guard (q fh : String) (m : Mach)
    (h : Reach (initMach q fh) m) (hpc : m.pc = Node.synthesizer)
    (hrc : m.st.repair_count = 2) (a : PyVal) (e c : String) (m' : Mach)
    (hstep : stepF m (.isynth a e c) = some m') :
    m'.pc = Node.terminal ∧
    m'.st.confidence = calculate_confidence m.st.sql_result m.st.retrieved_docs 2 ∧
    m'.st.error = m.st.error := by
  obtain ⟨pc, st, k, steps⟩ := m
  simp only at hpc hrc
  subst hpc
  simp only [stepF, Option.some.injEq] at hstep
  subst hstep
  have hterm : should_repair (synthesizerNode st a e c) = Node.terminal := by
    unfold should_repair
    rw [if_pos]
    show st.repair_count ≥ 2
    omega
  refine ⟨hterm, ?_, rfl⟩
  show (synthesizerNode st a e c).confidence
    = calculate_confidence st.sql_result st.retrieved_docs 2
  rw [show (synthesizerNode st a e c).confidence
    = calculate_confidence st.sql_result st.retrieved_docs st.repair_count from rfl, hrc]

/-- C4 amended, witnessed on a concrete reachable run: the third synthesizer
pass of the persistent-error trace terminates with the decayed confidence
and the raw error message still stored. -/
theorem C4_bound_witness :
    (let m8 := (runF (initMach "q" "str")
        [.irout "sql", .iplan "\x7b\x7d", .insql "SELECT a FROM t",
         .iexec ⟨[], [], some "no such table: t"⟩,
         .isynth (vStr "x") "e" "[]", .irep, .isynth (vStr "x") "e" "[]",
         .irep]).getD (initMach "" "");
     let mT := (stepF m8 (.isynth (vStr "x") "e" "[]")).getD (initMach "" "");
      mT.pc = Node.terminal ∧
      mT.st.confidence = calculate_confidence m8.st.sql_result m8.st.retrieved_docs 2 ∧
      mT.st.error = m8.st.error) := by
  exact C4_bound_terminates_via_guard "q" "str" _
    (runF_reach_getD (by rfl) _) (by rfl) (by rfl) (vStr "x") "e" "[]" _ (by rfl)

/-- C6 counterexample: when the model returns an *empty* citation string,
`forward` assigns `[]` directly (`json.loads(...) if citations_str else []`)
and the deterministic fallback never runs — so the citations are empty even
though a retrieved document is present. -/
theorem C6_counterexample :
    forwardCitations "" none [⟨"d1", "content", 1⟩] = PyVal.vList [] ∧
    ([⟨"d1", "content", 1⟩] : List Doc) ≠ [] := by
  exact ⟨rfl, by simp⟩

/-- C6 amended: the fallback runs exactly when the citation text is
*non-empty* and fails to parse as JSON; in that case the citations are the
deduplicated non-empty retrieved document ids plus (when query rows are
non-empty) the fixed canonical table names, and they are non-empty provided
rows are non-empty or some retrieved document has a non-empty id.  An empty
citation text (or one parsing to an empty JSON list) yields empty citations
even when evidence exists. -/
theorem C6_fallback_nonempty (citations_str : String) (sr : Option SQLResult)
    (docs : List Doc) (hne : citations_str ≠ "")
    (hfail : jsonLoads citations_str = none)
    (hev : hasRowsB sr = true ∨ ∃ d ∈ docs, d.id ≠ "") :
    forwardCitations citations_str sr docs
      = vList ((generate_basic_citations sr docs).map vStr) ∧
    generate_basic_citations sr docs ≠ [] := by
  constructor
  · simp [forwardCitations, hne, hfail]
  · have hmem : (docs.filterMap fun d => if d.id = "" then none else some d.id) ≠ []
        ∨ hasRowsB sr = true := by
      rcases hev with hr | ⟨d, hd, hid⟩
      · exact Or.inr hr
      · left
        intro hnil
        have hdm : d.id ∈ docs.filterMap fun d => if d.id = "" then none else some d.id :=
          List.mem_filterMap.mpr ⟨d, hd, by simp [hid]⟩
        rw [hnil] at hdm
        simp at hdm
    unfold generate_basic_citations
    by_cases hr2 : hasRowsB sr = true
    · simp only [hr2, if_true]
      intro hnil
      rw [List.dedup_eq_nil] at hnil
      simp at hnil
    · simp only [hr2, if_false]
      intro hnil
      rw [List.dedup_eq_nil] at hnil
      exact (hmem.resolve_right hr2) hnil

/-- C6 amended, witnessed at a concrete input: an unparseable non-empty
citation string with one retrieved document yields that document's id. -/
theorem C6_fallback_witness :
    forwardCitations "notjson" none [⟨"d1", "content", 1⟩]
      = vList ((generate_basic_citations none [⟨"d1", "content", 1⟩]).map vStr) ∧
    generate_basic_citations none [⟨"d1", "content", 1⟩] ≠ [] := by
  exact C6_fallback_nonempty "notjson" none [⟨"d1", "content", 1⟩]
    (by simp) (by rfl) (Or.inr ⟨⟨"d1", "content", 1⟩, by simp, by simp⟩)

/-- Shape of the list-hint JSON branch of `_format_answer`. -/
theorem listBranchShape (s : String) :
    isListVal (match jsonLoads s with | some v => v | none => vList [vStr s]) = true ∨
    ∃ v, jsonLoads s = some v ∧
      (match jsonLoads s with | some v => v | none => vList [vStr s]) = v := by
  cases hj : jsonLoads s with
  | none => exact Or.inl (by simp [isListVal])
  | some v => exact Or.inr ⟨v, rfl, by simp⟩

/-- Shape of the object-hint JSON branch of `_format_answer`. -/
theorem dictBranchShape (s : String) :
    isDictVal (match jsonLoads s with
      | some v => v | none => vDict [("result", vStr s)]) = true ∨
    ∃ v, jsonLoads s = some v ∧
      (match jsonLoads s with | some v => v | none => vDict [("result", vStr s)]) = v := by
  cases hj : jsonLoads s with
  | none => exact Or.inl (by simp [isDictVal])
  | some v => exact Or.inr ⟨v, rfl, by simp⟩

/-- C7 counterexample: with hint `list` and the answer text `"5"`,
`json.loads` succeeds and its value — the integer `5` — is returned as-is,
so the coercion yields a non-sequence for a `list` hint, refuting the
claimed shape guarantee. -/
theorem C7_counterexample :
    format_answer (vStr "5") "list" = PyVal.vInt 5 ∧
    isListVal (format_answer (vStr "5") "list") = false := by
  exact ⟨rfl, rfl⟩

/-- C7 amended: answer coercion is total and yields the documented shapes,
except that for `list`/`list[...]` and `object`/`{...}` hints a successful
`json.loads` of the answer text is returned *as-is* even when the decoded
value is not a sequence / mapping.  In detail: an `int` hint always yields
an integer (the parse or the fallback `0`); a `float` hint always yields a
number; a list-family hint yields a list (pass-through or wrapped raw text
or `[]`) or the raw JSON-decoded value; an object-family hint likewise; any
other hint yields the stripped answer text. -/
theorem C7_format_answer_shapes (answer : PyVal) (format_hint : String) :
    (format_hint = "int" →
      ∃ n : Int, format_answer answer format_hint = vInt n) ∧
    (format_hint = "float" →
      ∃ x : Rat, format_answer answer format_hint = vFloat x) ∧
    ((strStarts "list[" format_hint = true ∨ format_hint = "list") →
      isListVal (format_answer answer format_hint) = true ∨
      (∃ v, jsonLoads (stripStr (pyStr answer)) = some v ∧
        format_answer answer format_hint = v)) ∧
    ((strStarts "\x7b" format_hint = true ∨ format_hint = "object") →
      isDictVal (format_answer answer format_hint) = true ∨
      (∃ v, jsonLoads (stripStr (pyStr answer)) = some v ∧
        format_answer answer format_hint = v)) ∧
    ((format_hint ≠ "int" ∧ format_hint ≠ "float" ∧
      strStarts "list[" format_hint = false ∧ format_hint ≠ "list" ∧
      strStarts "\x7b" format_hint = false ∧ format_hint ≠ "object") →
      format_answer answer format_hint = vStr (stripStr (pyStr answer))) := by
  refine ⟨?_, ?_, ?_, ?_, ?_⟩
  · intro h
    subst h
    unfold format_answer
    rw [if_pos rfl]
    cases hp : pyFloat (stripStr (pyStr answer))
    · exact ⟨0, rfl⟩
    · exact ⟨_, rfl⟩
  · intro h
    subst h
    unfold format_answer
    rw [if_neg (by decide), if_pos rfl]
    cases hp : pyFloat (stripStr (pyStr answer))
    · exact ⟨0, rfl⟩
    · exact ⟨_, rfl⟩
  · intro hl
    have h1 : format_hint ≠ "int" := by
      rcases hl with h | h
      · intro he; rw [he] at h; exact absurd h (by decide)
      · intro he; rw [h] at he; exact absurd he (by decide)
    have h2 : format_hint ≠ "float" := by
      rcases hl with h | h
      · intro he; rw [he] at h; exact absurd h (by decide)
      · intro he; rw [h] at he; exact absurd he (by decide)
    unfold format_answer
    rw [if_neg h1, if_neg h2, if_pos (by simpa using hl)]
    cases answer <;>
      first
        | exact Or.inl rfl
        | exact listBranchShape _
  · intro hl
    have h1 : format_hint ≠ "int" := by
      rcases hl with h | h
      · intro he; rw [he] at h; exact absurd h (by decide)
      · intro he; rw [h] at he; exact absurd he (by decide)
    have h2 : format_hint ≠ "float" := by
      rcases hl with h | h
      · intro he; rw [he] at h; exact absurd h (by decide)
      · intro he; rw [h] at he; exact absurd he (by decide)
    have h3 : ¬(strStarts "list[" format_hint = true ∨ format_hint = "list") := by
      intro hcon
      rcases hl with h | h <;> rcases hcon with h' | h'
      · -- format_hint starts with both "{" and "list["
        obtain ⟨a, rest, hfh⟩ : ∃ a rest, format_hint.data = a :: rest := by
          cases hd : format_hint.data with
          | nil => rw [show strStarts "\x7b" format_hint = hasPre "\x7b".data format_hint.data
                    from rfl, hd] at h; exact absurd h (by decide)
          | cons a rest => exact ⟨a, rest, rfl⟩
        rw [show strStarts "\x7b" format_hint = hasPre "\x7b".data format_hint.data from rfl,
          hfh] at h
        rw [show strStarts "list[" format_hint = hasPre "list[".data format_hint.data from rfl,
          hfh] at h'
        simp [hasPre] at h h'
        exact absurd (h.trans h'.1.symm) (by decide)
      · rw [h'] at h; exact absurd h (by decide)
      · rw [h] at h'; exact absurd h' (by decide)
      · rw [h] at h'; exact absurd h' (by decide)
    unfold format_answer
    rw [if_neg h1, if_neg h2, if_neg (by simpa using h3), if_pos (by simpa using hl)]
    cases answer <;>
      first
        | exact Or.inl rfl
        | exact dictBranchShape _
  · intro ⟨h1, h2, h3, h4, h5, h6⟩
    unfold format_answer
    rw [if_neg h1, if_neg h2, if_neg (by simp [h3, h4]), if_neg (by simp [h5, h6])]

/-- C7 amended, witnessed at a concrete input: a free-form hint passes the
stripped answer text through. -/
theorem C7_shapes_witness :
    format_answer (vStr "7") "custom" = vStr (stripStr (pyStr (vStr "7"))) := by
  exact (C7_format_answer_shapes (vStr "7") "custom").2.2.2.2
    ⟨by decide, by decide, by rfl, by decide, by rfl, by decide⟩
